import Mathlib

/-!
Verification of the beaverhabits habit-tracking core against its
natural-language specification.

The Python data layer stores habits as nested dictionaries:
a record is `{"day": "YYYY-MM-DD", "done": bool}`, a habit is
`{"id"?: str, "name": str, "star"?: int, "records": [...]}` and a habit
list is `{"habits": [...], "order"?: [str]}`.  We embed the dictionaries
as Lean structures; calendar days are embedded as natural numbers (the
source serialises days as `YYYY-MM-DD` strings and parses them back, a
bijection on valid dates, so days behave as an abstract ordered type).
Optional dictionary keys become `Option` fields.
-/

namespace Beaver

/-- One check record: `{"day": d, "done": b}` (storage/dict.py `DictRecord`). -/
structure RecordData where
  day : Nat
  done : Bool
deriving DecidableEq, Repr

/-- One habit dictionary (storage/dict.py `DictHabit` / storage.py `EnhancedHabit`).
The `id` and `star` keys may be absent from the underlying dictionary,
hence `Option`. -/
structure HabitData where
  id : Option String
  name : String
  star : Option Int
  records : List RecordData
deriving DecidableEq, Repr

/-- Modelled from the spec: `generate_short_hash` lives in
`beaverhabits/utils.py`, which is not part of the provided sources.  The
spec says a habit id is "derived deterministically from the name at
creation time", and the doctest in storage/dict.py shows
`DictHabit({"name": "Exercise", ...}).id == 'exercise'`, so we model the
hash as a deterministic function of the name with that doctest value. -/
def generate_short_hash (name : String) : String :=
  name.toLower

/-- `DictHabit.id`: returns the stored `"id"`; when the key is absent it is
lazily materialised as `generate_short_hash(name)` (storage/dict.py lines
72-76).  The lazy write mutates the dictionary, but the value produced is
always this one, so the pure function models it. -/
def dictId (h : HabitData) : String :=
  h.id.getD (generate_short_hash h.name)

/-- `DictHabit.star`: `self.data.get("star", 0)` (storage/dict.py lines 86-88). -/
def dictStar (h : HabitData) : Int :=
  h.star.getD 0

/-- `Habit.ticked_days` (storage/storage.py lines 49-51):
`[r.day for r in self.records if r.done]`. -/
def tickedDays (rs : List RecordData) : List Nat :=
  (rs.filter (·.done)).map (·.day)

/-- The days that have any record at all: `{r.day for r in self.records}`. -/
def recordedDays (rs : List RecordData) : List Nat :=
  rs.map (·.day)

/-- `DictHabit.tick(day, done)` on the record list (storage/dict.py lines
106-123, identical in `EnhancedHabit.tick`, storage.py lines 156-162): the
first record for `day` has its `done` overwritten; if none exists a new
record is appended at the end. -/
def tickRecords (rs : List RecordData) (day : Nat) (done : Bool) : List RecordData :=
  match rs with
  | [] => [⟨day, done⟩]
  | r :: rest =>
      if r.day = day then ⟨r.day, done⟩ :: rest
      else r :: tickRecords rest day done

/-- `DictHabit.tick` at the habit level. -/
def dictTick (h : HabitData) (day : Nat) (done : Bool) : HabitData :=
  { h with records := tickRecords h.records day done }

/-- `DictHabit.merge(other)` (storage/dict.py lines 125-152):
`existing_days = {r.day for r in self.records}`; all of `self`'s record
dictionaries are kept, and `other`'s records are appended for days not in
`existing_days`.  The result carries `self`'s id, name and star. -/
def dictHabitMerge (a b : HabitData) : HabitData :=
  { id := some (dictId a),
    name := a.name,
    star := some (dictStar a),
    records := a.records ++ b.records.filter (fun r => !(recordedDays a.records).contains r.day) }

/-- Ascending insertion of a day into a sorted list (used to model Python
`sorted(...)` on a set of distinct days: all correct sorts of a duplicate-free
list agree, so insertion sort is extensionally the source's sort). -/
def insertNat (d : Nat) : List Nat → List Nat
  | [] => [d]
  | x :: xs => if d ≤ x then d :: x :: xs else x :: insertNat d xs

/-- Sorting a list of days ascending, modelling Python `sorted`. -/
def sortNat : List Nat → List Nat
  | [] => []
  | x :: xs => insertNat x (sortNat xs)

/-- `EnhancedHabit.merge(other)` (storage/storage.py lines 164-175):
`self_ticks | other_ticks` sorted, every resulting record `done=true`; the
constructed dictionary has only `"name"` and `"records"` keys, so the
merged habit has no id and no star. -/
def enhancedHabitMerge (a b : HabitData) : HabitData :=
  { id := none,
    name := a.name,
    star := none,
    records := (sortNat ((tickedDays a.records ++ tickedDays b.records).dedup)).map
      (fun d => ⟨d, true⟩) }

/-- Stable insertion for the star-descending sort.  `starSort (h :: hs)`
inserts `h` into the already sorted tail, whose elements all come later in
the original list, so for stability `h` must go after habits with a
strictly larger star and before the first habit with an equal or smaller
star — mirroring the stability of Python `list.sort`. -/
def insertStar (h : HabitData) : List HabitData → List HabitData
  | [] => [h]
  | x :: xs => if dictStar x ≤ dictStar h then h :: x :: xs else x :: insertStar h xs

/-- The `habits` read view of `DictHabitList` (storage/dict.py lines
170-174): the stored habit list sorted by star descending.  Python
`list.sort` is stable, and a stable sort by a key is a unique function, so
stable insertion sort is extensionally the source's sort. -/
def starSort : List HabitData → List HabitData
  | [] => []
  | h :: hs => insertStar h (starSort hs)

/-- `EnhancedHabit.id` (storage/storage.py lines 132-134): strictly
`self.data["id"]`; the source raises `KeyError` when the key is absent, so
habits flowing through the Enhanced code paths are assumed to carry the
key and the default only stands in for that error. -/
def enhId (h : HabitData) : String :=
  h.id.getD ""

/-- First index of a string in a list, `order.index(x)` for
`x in order` and `none` otherwise. -/
def idxIn : List String → String → Option Nat
  | [], _ => none
  | o :: os, x => if o = x then some 0 else (idxIn os x).map (· + 1)

/-- The sort key of `EnhancedHabitList.habits` (storage/storage.py lines
193-200): `self.order.index(str(x.id))` when present, else `float("inf")`.
Every real index is below `order.length`, so `order.length` plays the role
of infinity. -/
def posKey (order : List String) (h : HabitData) : Nat :=
  (idxIn order (enhId h)).getD order.length

/-- Stable ascending insertion by `posKey`.  `sortByPos order (h :: hs)`
inserts `h` into the already sorted tail, whose elements all come later in
the original list, so for stability `h` must go after habits with a
strictly smaller key and before the first habit with an equal or larger
key — mirroring the stability of Python `list.sort`. -/
def insertPos (order : List String) (h : HabitData) : List HabitData → List HabitData
  | [] => [h]
  | x :: xs => if posKey order h ≤ posKey order x then h :: x :: xs else x :: insertPos order h xs

/-- Stable sort by `posKey`, extensionally Python `list.sort` with that key. -/
def sortByPos (order : List String) : List HabitData → List HabitData
  | [] => []
  | h :: hs => insertPos order h (sortByPos order hs)

/-- The `habits` read view of `EnhancedHabitList` (storage/storage.py lines
190-204): when `order` is non-empty (`if self.order:`) the stored habits are
sorted by order position with absentees keyed as infinity; when `order` is
empty they are sorted by star descending. -/
def enhancedHabitsView (habits : List HabitData) (order : List String) : List HabitData :=
  if order.isEmpty then starSort habits else sortByPos order habits

/-- `DictHabitList.add(name)` (storage/dict.py lines 196-211): if any habit
in the view already has this name the call silently returns; otherwise
`{"name": name, "records": [], "id": generate_short_hash(name)}` is
appended (no `"star"` key). -/
def dictAdd (habits : List HabitData) (name : String) : List HabitData :=
  if (starSort habits).any (fun h => h.name == name) then habits
  else habits ++ [⟨some (generate_short_hash name), name, none, []⟩]

/-- `DictHabitList.remove(item)` (storage/dict.py lines 213-225):
`self.data["habits"].remove(item.data)`, i.e. Python `list.remove`: delete
the first entry equal to `item`'s data, and raise `ValueError` when no
entry is equal to it. -/
def dictRemove (habits : List HabitData) (item : HabitData) : Except String (List HabitData) :=
  if item ∈ habits then Except.ok (habits.erase item)
  else Except.error "ValueError: list.remove(x): x not in list"

/-- `EnhancedHabitList.remove(item)` (storage/storage.py lines 218-219):
`self.data["habits"] = [h.data for h in self.habits if h.id != item.id]` —
the id-filtered sorted view replaces the stored list, and a missing id is
not an error. -/
def enhancedRemove (habits : List HabitData) (order : List String) (item : HabitData) :
    List HabitData :=
  (enhancedHabitsView habits order).filter (fun h => !(enhId h == enhId item))

/-- One iteration of the loop of `DictHabitList.merge_user_habit_list`
(storage/dict.py lines 240-248) for the incoming habit `h`: when `h`'s id
is among the ids of the original list, the current habit with that id is
looked up in the star-sorted view (`next(h for h in self.habits ...)`),
its data removed from the stored list and the merged habit's data
appended; otherwise `h`'s data is appended.  The `none` branch mirrors the
`StopIteration` the generator would raise and is unreachable while the
original ids stay in the list. -/
def mergeUserStep (acc : List HabitData) (existingIds : List String) (h : HabitData) :
    List HabitData :=
  if dictId h ∈ existingIds then
    match (starSort acc).find? (fun x => dictId x == dictId h) with
    | some ex => (acc.erase ex) ++ [dictHabitMerge ex h]
    | none => acc
  else acc ++ [h]

/-- `DictHabitList.merge_user_habit_list(other)` (storage/dict.py lines
227-248): `existing_habits = {habit.id for habit in self.habits}` is
computed once; the loop then runs over `other.habits` (the star-sorted
view), mutating `self.data["habits"]` step by step. -/
def merge_user_habit_list (selfHabits otherHabits : List HabitData) : List HabitData :=
  (starSort otherHabits).foldl
    (fun acc h => mergeUserStep acc ((starSort selfHabits).map dictId) h) selfHabits

/-- `UserDatabaseStorage.merge_user_habit_list(user, other)`
(storage/user_db.py lines 56-71), with the database row for the user made
explicit as `db`: when `get_user_habit_list` returns `None` the incoming
list is returned and nothing is written; otherwise `current.merge(other)`
is computed — the habit-list merge realised by the dictionary habit-list
merger — the result saved and returned.  The pair is
(database row afterwards, returned list). -/
def merge_user_habit_list_db (db : Option (List HabitData)) (other : List HabitData) :
    Option (List HabitData) × List HabitData :=
  match db with
  | none => (none, other)
  | some current =>
      (some (merge_user_habit_list current other), merge_user_habit_list current other)

/-- `import_from_json(json_text)` (frontend/import_page.py lines 15-20)
after JSON parsing, on the parsed `habits` array: `if not
habit_list.habits: raise ValueError("No habits found in the JSON data")`,
and the parsed list is returned otherwise. -/
def import_from_json (data : List HabitData) : Except String (List HabitData) :=
  if (starSort data).isEmpty then Except.error "No habits found in the JSON data"
  else Except.ok data

/-- `handle_upload` (frontend/import_page.py lines 24-71) threaded over the
persisted state `db`: `import_from_json` runs first; an error leaves the
storage untouched.  On success the current list is loaded (`or
DictHabitList({"habits": []})`) and saved back: the per-habit
`current_habit.merge(habit)` calls build coroutines that are never
awaited, and `current_habits.habits.extend(...)` extends the temporary
list built by the `habits` property, so the saved data is the unchanged
current list. -/
def handle_upload (db : Option (List HabitData)) (payload : List HabitData) :
    Option (List HabitData) × Except String Unit :=
  match import_from_json payload with
  | Except.error e => (db, Except.error e)
  | Except.ok _ => (some (db.getD []), Except.ok ())

/-- `UserDiskStorage.get_user_habit_list` (storage/user_file.py lines
26-34): reading the persistent dictionary yields `persisted` (with `none`
for missing/empty data) unless the medium faults; `except Exception`
catches any fault, logs it, and returns `None`. -/
def get_user_habit_list_file (persisted : Option (List HabitData)) (fault : Option String) :
    Option (List HabitData) :=
  match fault with
  | none => persisted
  | some _ => none

/-- `UserDiskStorage.save_user_habit_list` (storage/user_file.py lines
36-53): on a healthy medium the incoming list is merged into the currently
persisted one (`d.get(KEY_NAME, {})`, default the empty list) and the
merged dictionary written; on a fault, `except Exception` logs and returns
normally, leaving the persisted state untouched.  The pair is
(persisted state afterwards, what the caller sees). -/
def save_user_habit_list_file (persisted : List HabitData) (fault : Option String)
    (incoming : List HabitData) : List HabitData × Except String Unit :=
  match fault with
  | none => (merge_user_habit_list persisted incoming, Except.ok ())
  | some _ => (persisted, Except.ok ())

/-- `UserDatabaseStorage.save_user_habit_list` (storage/user_db.py lines
49-54): `crud.update_user_habit_list` may fault; `except Exception` logs
and returns normally, so the caller always sees a plain `None` return. -/
def save_user_habit_list_db (fault : Option String) : Except String Unit :=
  match fault with
  | none => Except.ok ()
  | some _ => Except.ok ()

/-- `EnhancedHabitList.merge(other)` (storage/storage.py lines 226-236):
the result is the symmetric difference of the two habit collections under
id-equality, together with `self_habit.merge(other_habit)` for every pair
sharing an id; `order` is taken from `self`.  Python builds the result as
a `set`, whose iteration order is unspecified, so the embedding lists the
three groups in a fixed order; only membership is meaningful.  The habit
views it iterates are permutations of the stored lists. -/
def enhancedListMerge (selfH otherH : List HabitData) (order : List String) :
    List HabitData × List String :=
  ((selfH.filter (fun h => !(otherH.any (fun o => enhId o == enhId h))))
      ++ (otherH.filter (fun h => !(selfH.any (fun s => enhId s == enhId h))))
      ++ (selfH.foldr (fun s acc =>
            ((otherH.filter (fun o => enhId o == enhId s)).map
              (fun o => enhancedHabitMerge s o)) ++ acc) []),
    order)

/-- The habit ids present in a stored habit list: the values of the `"id"`
keys that exist (a habit whose dictionary has no `"id"` key contributes
nothing; reading its `id` raises `KeyError` in the Enhanced classes). -/
def enhancedIds (l : List HabitData) : List String :=
  l.filterMap (·.id)

/- ### Helper lemmas -/

theorem mem_insertStar {a h : HabitData} {l : List HabitData} :
    a ∈ insertStar h l ↔ a = h ∨ a ∈ l := by
  induction l with
  | nil => simp [insertStar]
  | cons x xs ih =>
      simp only [insertStar]
      split
      · simp
      · simp [ih]; tauto

theorem mem_starSort {a : HabitData} {l : List HabitData} :
    a ∈ starSort l ↔ a ∈ l := by
  induction l with
  | nil => simp [starSort]
  | cons x xs ih => simp [starSort, mem_insertStar, ih]

theorem mem_tickedDays {d : Nat} {rs : List RecordData} :
    d ∈ tickedDays rs ↔ ∃ r ∈ rs, r.done = true ∧ r.day = d := by
  simp only [tickedDays, List.mem_map, List.mem_filter]
  constructor
  · rintro ⟨r, ⟨hr, hd⟩, rfl⟩; exact ⟨r, hr, hd, rfl⟩
  · rintro ⟨r, hr, hd, rfl⟩; exact ⟨r, ⟨hr, hd⟩, rfl⟩

theorem mem_insertNat {a d : Nat} {l : List Nat} :
    a ∈ insertNat d l ↔ a = d ∨ a ∈ l := by
  induction l with
  | nil => simp [insertNat]
  | cons x xs ih =>
      simp only [insertNat]
      split
      · simp
      · simp [ih]; tauto

theorem mem_sortNat {a : Nat} {l : List Nat} :
    a ∈ sortNat l ↔ a ∈ l := by
  induction l with
  | nil => simp [sortNat]
  | cons x xs ih => simp [sortNat, mem_insertNat, ih]

theorem tickRecords_idem (rs : List RecordData) (day : Nat) (done : Bool) :
    tickRecords (tickRecords rs day done) day done = tickRecords rs day done := by
  induction rs with
  | nil => simp [tickRecords]
  | cons r rest ih =>
      by_cases h : r.day = day
      · simp [tickRecords, h]
      · simp [tickRecords, h, ih]

/- ### Claims -/

/-- Claim C7: ticking the same (day, done) pair twice yields the same
ticked days as ticking it once; in fact the whole record list is the
same, because the second tick finds the record the first one wrote and
overwrites it with the same value. -/
theorem C7_tick_idempotent (h : HabitData) (day : Nat) (done : Bool) :
    tickedDays (dictTick (dictTick h day done) day done).records
      = tickedDays (dictTick h day done).records := by
  simp [dictTick, tickRecords_idem]

/-- Claim C1, counterexample: with habits of the same id where A records
day 0 as done=false and B records day 0 as done=true, `DictHabit.merge`
keeps A's false record and drops B's true record: day 0 is ticked in B but
not in the merged habit, so ticked days of the merge are not the union and
true does not win over false. -/
theorem C1_counterexample :
    dictId ⟨some "x", "h", some 0, [⟨0, false⟩]⟩
        = dictId ⟨some "x", "h", some 0, [⟨0, true⟩]⟩
      ∧ (0 : Nat) ∈ tickedDays [⟨0, true⟩]
      ∧ (0 : Nat) ∉ tickedDays (dictHabitMerge ⟨some "x", "h", some 0, [⟨0, false⟩]⟩
          ⟨some "x", "h", some 0, [⟨0, true⟩]⟩).records := by
  decide

/-- Claim C1, amended: for `EnhancedHabit.merge` the ticked days of the
merged habit are exactly the union of both sides' ticked days; for
`DictHabit.merge` they are the ticked days of the receiver together with
only those ticked days of the argument whose day the receiver does not
record at all — a done=false record in the receiver shadows a done=true
record in the argument, so true wins over absent but not over false. -/
theorem C1_merge_ticked :
    (∀ a b : HabitData, ∀ d : Nat,
        d ∈ tickedDays (enhancedHabitMerge a b).records
          ↔ d ∈ tickedDays a.records ∨ d ∈ tickedDays b.records)
    ∧ (∀ a b : HabitData, ∀ d : Nat,
        d ∈ tickedDays (dictHabitMerge a b).records
          ↔ d ∈ tickedDays a.records
            ∨ (d ∈ tickedDays b.records ∧ d ∉ recordedDays a.records)) := by
  constructor
  · intro a b d
    simp only [enhancedHabitMerge]
    constructor
    · intro hd
      rcases mem_tickedDays.1 hd with ⟨r, hr, _, rfl⟩
      rcases List.mem_map.1 hr with ⟨x, hx, hxe⟩
      have hx' := mem_sortNat.1 hx
      rw [List.mem_dedup, List.mem_append] at hx'
      cases hxe
      exact hx'
    · intro hd
      apply mem_tickedDays.2
      refine ⟨⟨d, true⟩, ?_, rfl, rfl⟩
      apply List.mem_map.2
      refine ⟨d, ?_, rfl⟩
      exact mem_sortNat.2 (List.mem_dedup.2 (List.mem_append.2 hd))
  · intro a b d
    have happ : tickedDays (dictHabitMerge a b).records
        = tickedDays a.records
          ++ tickedDays (b.records.filter (fun r => !(recordedDays a.records).contains r.day)) := by
      simp [dictHabitMerge, tickedDays, List.filter_append]
    rw [happ, List.mem_append]
    constructor
    · rintro (hd | hd)
      · exact Or.inl hd
      · rcases mem_tickedDays.1 hd with ⟨r, hr, hdone, rfl⟩
        rcases List.mem_filter.1 hr with ⟨hrb, hcond⟩
        rw [Bool.not_eq_true', ← Bool.not_eq_true] at hcond
        refine Or.inr ⟨mem_tickedDays.2 ⟨r, hrb, hdone, rfl⟩, ?_⟩
        intro hmem
        exact hcond (List.elem_iff.2 hmem)
    · rintro (hd | ⟨hd, habs⟩)
      · exact Or.inl hd
      · rcases mem_tickedDays.1 hd with ⟨r, hr, hdone, rfl⟩
        refine Or.inr (mem_tickedDays.2 ⟨r, List.mem_filter.2 ⟨hr, ?_⟩, hdone, rfl⟩)
        rw [Bool.not_eq_true', ← Bool.not_eq_true]
        intro hc
        exact habs (List.elem_iff.1 hc)

theorem any_insertStar (h : HabitData) (l : List HabitData) (p : HabitData → Bool) :
    (insertStar h l).any p = (p h || l.any p) := by
  induction l with
  | nil => simp [insertStar]
  | cons x xs ih =>
      simp only [insertStar]
      split
      · simp [List.any_cons]
      · simp only [List.any_cons, ih]
        cases p h <;> cases p x <;> simp

theorem any_starSort (l : List HabitData) (p : HabitData → Bool) :
    (starSort l).any p = l.any p := by
  induction l with
  | nil => rfl
  | cons x xs ih => simp [starSort, any_insertStar, ih, List.any_cons]

theorem mem_insertPos {order : List String} {a h : HabitData} {l : List HabitData} :
    a ∈ insertPos order h l ↔ a = h ∨ a ∈ l := by
  induction l with
  | nil => simp [insertPos]
  | cons x xs ih =>
      simp only [insertPos]
      split
      · simp
      · simp [ih]; tauto

theorem mem_sortByPos {order : List String} {a : HabitData} {l : List HabitData} :
    a ∈ sortByPos order l ↔ a ∈ l := by
  induction l with
  | nil => simp [sortByPos]
  | cons x xs ih => simp [sortByPos, mem_insertPos, ih]

theorem mem_enhancedHabitsView {a : HabitData} {habits : List HabitData}
    {order : List String} :
    a ∈ enhancedHabitsView habits order ↔ a ∈ habits := by
  unfold enhancedHabitsView
  split
  · exact mem_starSort
  · exact mem_sortByPos

/-- Claim C4, counterexample: adding the name "Read" twice to the empty
habit list leaves a single habit — the second `add` is a silent no-op
because a habit with that name already exists — so two adds do not
produce two distinct habits with two distinct ids. -/
theorem C4_counterexample :
    (dictAdd (dictAdd [] "Read") "Read").length = 1
      ∧ dictAdd (dictAdd [] "Read") "Read" = dictAdd [] "Read" := by
  constructor <;> rfl

/-- Claim C4, amended: `DictHabitList.add(name)` appends a fresh habit
with id `generate_short_hash(name)` and empty records only when no
existing habit carries the name; a second add of the same name is a
silent no-op, so adding is idempotent and name collisions are rejected
rather than allowed. -/
theorem C4_add_same_name_noop (habits : List HabitData) (name : String) :
    dictAdd (dictAdd habits name) name = dictAdd habits name := by
  by_cases hc : (starSort habits).any (fun h => h.name == name) = true
  · simp [dictAdd, hc]
  · have h1 : dictAdd habits name
        = habits ++ [⟨some (generate_short_hash name), name, none, []⟩] := by
      simp [dictAdd, hc]
    rw [h1]
    have h2 : (starSort (habits ++ [(⟨some (generate_short_hash name), name, none, []⟩ : HabitData)])).any
        (fun h => h.name == name) = true := by
      rw [any_starSort, List.any_append]
      simp
    simp [dictAdd, h2]

/-- Claim C5, counterexample: removing a habit from the empty list — a
habit certainly not present — is not a no-op: `DictHabitList.remove`
performs `list.remove(item.data)`, which raises `ValueError` when the data
is absent. -/
theorem C5_counterexample :
    dictRemove [] ⟨some "a", "A", none, []⟩
      = Except.error "ValueError: list.remove(x): x not in list" := by
  rfl

/-- Claim C5, amended: removing a habit whose data is not in the stored
list raises `ValueError` in `DictHabitList.remove` (it is not a no-op);
`EnhancedHabitList.remove` never errors, and removing a habit whose id no
stored habit carries keeps every habit, merely re-expressing the list
through the sorted view. -/
theorem C5_remove_missing (habits : List HabitData) (item : HabitData)
    (order : List String) (hd : item ∉ habits)
    (he : ∀ h ∈ habits, enhId h ≠ enhId item) :
    dictRemove habits item = Except.error "ValueError: list.remove(x): x not in list"
      ∧ enhancedRemove habits order item = enhancedHabitsView habits order := by
  constructor
  · simp [dictRemove, hd]
  · unfold enhancedRemove
    apply List.filter_eq_self.2
    intro a ha
    have := he a (mem_enhancedHabitsView.1 ha)
    simp [this]

theorem C5_remove_missing_witness :
    dictRemove [] ⟨some "b", "B", none, []⟩
        = Except.error "ValueError: list.remove(x): x not in list"
      ∧ enhancedRemove [] [] ⟨some "b", "B", none, []⟩ = enhancedHabitsView [] [] := by
  exact C5_remove_missing [] ⟨some "b", "B", none, []⟩ [] (by simp) (by simp)

/-- Claim C9: an import payload that parses to zero habits is rejected
with the "No habits found in the JSON data" error by `import_from_json`,
which `handle_upload` runs before it reads or writes any storage, so the
persisted state is returned untouched together with the error. -/
theorem C9_empty_import_rejected (db : Option (List HabitData)) :
    handle_upload db [] = (db, Except.error "No habits found in the JSON data")
      ∧ import_from_json ([] : List HabitData)
          = Except.error "No habits found in the JSON data" := by
  exact ⟨rfl, rfl⟩

/-- Claim C3, counterexample: when the stored row is absent,
`UserDatabaseStorage.merge_user_habit_list` returns the incoming list but
writes nothing — the row is still absent afterwards, not the incoming
list as the claim requires. -/
theorem C3_counterexample :
    (merge_user_habit_list_db none [⟨some "a", "A", none, []⟩]).1
        ≠ some [⟨some "a", "A", none, []⟩]
      ∧ (merge_user_habit_list_db none [⟨some "a", "A", none, []⟩]).2
          = [⟨some "a", "A", none, []⟩] := by
  constructor
  · intro h
    cases h
  · rfl

/-- Claim C3, amended: when the stored list is absent,
`merge_user_habit_list` returns the incoming list unchanged without
saving anything; otherwise it computes the merge of the current list with
the incoming one, saves it, and returns it. -/
theorem C3_merge_and_save_protocol :
    (∀ other : List HabitData, merge_user_habit_list_db none other = (none, other))
    ∧ (∀ current other : List HabitData,
        merge_user_habit_list_db (some current) other
          = (some (merge_user_habit_list current other),
             merge_user_habit_list current other)) := by
  exact ⟨fun _ => rfl, fun _ _ => rfl⟩

/-- Claim C6, counterexample: a database fault during save produces
exactly the same caller-visible outcome as a successful save, and a disk
fault during load turns existing persisted data into an absent result —
the failure is logged but masked, not reported as a distinct error
kind. -/
theorem C6_counterexample :
    save_user_habit_list_db (some "database unavailable") = save_user_habit_list_db none
      ∧ get_user_habit_list_file (some [⟨some "a", "A", none, []⟩]) (some "disk I/O error")
          = none := by
  exact ⟨rfl, rfl⟩

/-- Claim C6, amended: both backends wrap load and save in
`except Exception` handlers that log and return normally: a faulted
database save returns the success value, a faulted disk save leaves the
persisted state untouched while returning the success value, and a
faulted disk load reports the data as absent. -/
theorem C6_failures_swallowed :
    (∀ e : String, save_user_habit_list_db (some e) = Except.ok ())
    ∧ (∀ (e : String) (persisted incoming : List HabitData),
        (save_user_habit_list_file persisted (some e) incoming).2 = Except.ok ()
          ∧ (save_user_habit_list_file persisted (some e) incoming).1 = persisted)
    ∧ (∀ (e : String) (p : Option (List HabitData)),
        get_user_habit_list_file p (some e) = none) := by
  exact ⟨fun _ => rfl, fun _ _ _ => ⟨rfl, rfl⟩, fun _ _ => rfl⟩

theorem dictId_dictHabitMerge (a b : HabitData) :
    dictId (dictHabitMerge a b) = dictId a := rfl

theorem ids_mergeUserStep (acc : List HabitData) (E : List String) (h : HabitData)
    (hE : ∀ e ∈ E, e ∈ acc.map dictId) (i : String) :
    i ∈ (mergeUserStep acc E h).map dictId ↔ i ∈ acc.map dictId ∨ i = dictId h := by
  unfold mergeUserStep
  by_cases hmem : dictId h ∈ E
  · simp only [hmem, if_true]
    cases hfind : (starSort acc).find? (fun x => dictId x == dictId h) with
    | some ex =>
        have hex_eq : dictId ex = dictId h := by
          have := List.find?_some hfind
          exact eq_of_beq this
        have hex_mem : ex ∈ acc := mem_starSort.1 (List.mem_of_find?_eq_some hfind)
        simp only [List.map_append, List.mem_append, List.map_cons, List.map_nil,
          List.mem_singleton, dictId_dictHabitMerge, hex_eq]
        constructor
        · rintro (hi | rfl)
          · exact Or.inl (List.map_subset dictId (List.erase_subset ex acc) hi)
          · exact Or.inr rfl
        · rintro (hi | rfl)
          · rcases List.mem_map.1 hi with ⟨x, hx, rfl⟩
            by_cases hxh : dictId x = dictId h
            · exact Or.inr hxh
            · refine Or.inl (List.mem_map.2 ⟨x, ?_, rfl⟩)
              have hxe : x ≠ ex := fun hc => hxh (hc ▸ hex_eq)
              exact (List.mem_erase_of_ne hxe).2 hx
          · exact Or.inr rfl
    | none =>
        exfalso
        rcases List.mem_map.1 (hE (dictId h) hmem) with ⟨x, hx, hxid⟩
        have hx' : x ∈ starSort acc := mem_starSort.2 hx
        have := List.find?_eq_none.1 hfind x hx'
        rw [hxid] at this
        simp at this
  · simp [hmem]

theorem ids_mergeFold (rest : List HabitData) (acc : List HabitData) (E : List String)
    (hE : ∀ e ∈ E, e ∈ acc.map dictId) (i : String) :
    i ∈ (rest.foldl (fun a h => mergeUserStep a E h) acc).map dictId
      ↔ i ∈ acc.map dictId ∨ ∃ h ∈ rest, dictId h = i := by
  induction rest generalizing acc with
  | nil => simp
  | cons h rest ih =>
      simp only [List.foldl_cons]
      have hE' : ∀ e ∈ E, e ∈ (mergeUserStep acc E h).map dictId := by
        intro e he
        exact (ids_mergeUserStep acc E h hE e).2 (Or.inl (hE e he))
      rw [ih (mergeUserStep acc E h) hE', ids_mergeUserStep acc E h hE i]
      simp only [List.mem_cons]
      constructor
      · rintro ((hi | rfl) | ⟨x, hx, rfl⟩)
        · exact Or.inl hi
        · exact Or.inr ⟨h, Or.inl rfl, rfl⟩
        · exact Or.inr ⟨x, Or.inr hx, rfl⟩
      · rintro (hi | ⟨x, (rfl | hx), rfl⟩)
        · exact Or.inl (Or.inl hi)
        · exact Or.inl (Or.inr rfl)
        · exact Or.inr ⟨x, hx, rfl⟩

theorem mem_ids_merge_user_habit_list (l1 l2 : List HabitData) (i : String) :
    i ∈ (merge_user_habit_list l1 l2).map dictId
      ↔ i ∈ l1.map dictId ∨ i ∈ l2.map dictId := by
  unfold merge_user_habit_list
  have hE : ∀ e ∈ (starSort l1).map dictId, e ∈ l1.map dictId := by
    intro e he
    rcases List.mem_map.1 he with ⟨x, hx, rfl⟩
    exact List.mem_map.2 ⟨x, mem_starSort.1 hx, rfl⟩
  rw [ids_mergeFold (starSort l2) l1 ((starSort l1).map dictId) hE i]
  constructor
  · rintro (hi | ⟨x, hx, rfl⟩)
    · exact Or.inl hi
    · exact Or.inr (List.mem_map.2 ⟨x, mem_starSort.1 hx, rfl⟩)
  · rintro (hi | hi)
    · exact Or.inl hi
    · rcases List.mem_map.1 hi with ⟨x, hx, rfl⟩
      exact Or.inr ⟨x, mem_starSort.2 hx, rfl⟩

/-- Claim C2, counterexample: merging two `EnhancedHabitList`s that share
the habit id "a" produces a merged habit built from a dictionary with no
`"id"` key, so the id "a", present in both inputs, is present in neither
the result's id set — the merged set of ids is not the union of the input
id sets. -/
theorem C2_counterexample :
    "a" ∈ enhancedIds [⟨some "a", "A", some 0, []⟩]
      ∧ enhancedIds (enhancedListMerge [⟨some "a", "A", some 0, []⟩]
          [⟨some "a", "A", some 0, []⟩] []).1 = [] := by
  constructor
  · simp [enhancedIds]
  · rfl

/-- Claim C2, amended: for `DictHabitList.merge_user_habit_list`, the set
of habit ids present after merging is exactly the union of the ids of the
two inputs — no id is lost and none is invented.
`EnhancedHabitList.merge`, by contrast, rebuilds habits present in both
lists through `EnhancedHabit.merge`, whose result dictionary has no id,
so ids common to both inputs are lost there. -/
theorem C2_merge_ids_union (l1 l2 : List HabitData) (i : String) :
    i ∈ (merge_user_habit_list l1 l2).map dictId
      ↔ i ∈ l1.map dictId ∨ i ∈ l2.map dictId :=
  mem_ids_merge_user_habit_list l1 l2 i

theorem idxIn_not_mem (order : List String) (x : String) (hx : x ∉ order) :
    idxIn order x = none := by
  induction order with
  | nil => rfl
  | cons o os ih =>
      simp only [List.mem_cons, not_or] at hx
      have h : ¬ o = x := fun hc => hx.1 hc.symm
      simp only [idxIn, h, if_false]
      rw [ih hx.2]
      rfl

theorem idxIn_some_mem (order : List String) (x : String) (n : Nat)
    (h : idxIn order x = some n) : x ∈ order := by
  by_contra hmem
  rw [idxIn_not_mem order x hmem] at h
  cases h

theorem idxIn_none_not_mem (order : List String) (x : String)
    (h : idxIn order x = none) : x ∉ order := by
  induction order with
  | nil => simp
  | cons o os ih =>
      simp only [idxIn] at h
      by_cases ho : o = x
      · rw [if_pos ho] at h
        cases h
      · rw [if_neg ho] at h
        have hos : idxIn os x = none := by
          cases hc : idxIn os x with
          | none => rfl
          | some m =>
              rw [hc] at h
              simp at h
        simp only [List.mem_cons]
        intro hc
        rcases hc with rfl | hc2
        · exact ho rfl
        · exact ih hos hc2

theorem idxIn_lt_length (order : List String) (x : String) (n : Nat)
    (h : idxIn order x = some n) : n < order.length := by
  induction order generalizing n with
  | nil => cases h
  | cons o os ih =>
      simp only [idxIn] at h
      by_cases ho : o = x
      · rw [if_pos ho] at h
        have h0 : (0 : Nat) = n := by injection h
        rw [← h0]
        simp
      · rw [if_neg ho] at h
        cases hc : idxIn os x with
        | none =>
            rw [hc] at h
            cases h
        | some m =>
            rw [hc] at h
            have hm := ih m hc
            have hn : n = m + 1 := by
              simpa using h.symm
            subst hn
            simp only [List.length_cons]
            omega

theorem posKey_lt_length_iff (order : List String) (h : HabitData) :
    posKey order h < order.length ↔ enhId h ∈ order := by
  unfold posKey
  cases hx : idxIn order (enhId h) with
  | none =>
      simp only [Option.getD_none]
      constructor
      · intro hc
        exact absurd hc (lt_irrefl _)
      · intro hmem
        exact absurd hmem (idxIn_none_not_mem order (enhId h) hx)
  | some n =>
      simp only [Option.getD_some]
      constructor
      · intro _
        exact idxIn_some_mem order (enhId h) n hx
      · intro _
        exact idxIn_lt_length order (enhId h) n hx

theorem pairwise_ofForall {R : HabitData → HabitData → Prop}
    (hR : ∀ a b, R a b) (l : List HabitData) : l.Pairwise R := by
  induction l with
  | nil => exact List.Pairwise.nil
  | cons x xs ih => exact List.Pairwise.cons (fun b _ => hR x b) ih

theorem pairwise_insertPos (order : List String) (h : HabitData)
    (l : List HabitData)
    (hl : l.Pairwise (fun a b => posKey order a ≤ posKey order b)) :
    (insertPos order h l).Pairwise (fun a b => posKey order a ≤ posKey order b) := by
  induction l with
  | nil => simp [insertPos]
  | cons x xs ih =>
      rcases List.pairwise_cons.1 hl with ⟨hx, hxs⟩
      simp only [insertPos]
      split
      · rename_i hle
        refine List.pairwise_cons.2 ⟨?_, hl⟩
        intro b hb
        rcases List.mem_cons.1 hb with rfl | hb
        · exact hle
        · exact le_trans hle (hx b hb)
      · rename_i hgt
        have hxh : posKey order x ≤ posKey order h := le_of_not_le hgt
        refine List.pairwise_cons.2 ⟨?_, ih hxs⟩
        intro b hb
        rcases mem_insertPos.1 hb with rfl | hb
        · exact hxh
        · exact hx b hb

theorem pairwise_sortByPos (order : List String) (l : List HabitData) :
    (sortByPos order l).Pairwise (fun a b => posKey order a ≤ posKey order b) := by
  induction l with
  | nil => exact List.Pairwise.nil
  | cons x xs ih => exact pairwise_insertPos order x (sortByPos order xs) ih

/-- Claim C8, counterexample: with `order = ["a"]`, the stored habits
`b` (star 0) and `c` (star 1) both lack an order position, yet the sorted
view keeps them in stored order — `b` before `c` — instead of applying
the star-descending tie-break, which would put `c` first. -/
theorem C8_counterexample :
    enhancedHabitsView
        [⟨some "b", "B", some 0, []⟩, ⟨some "c", "C", some 1, []⟩,
         ⟨some "a", "A", some 0, []⟩] ["a"]
      = [⟨some "a", "A", some 0, []⟩, ⟨some "b", "B", some 0, []⟩,
         ⟨some "c", "C", some 1, []⟩]
    ∧ dictStar ⟨some "b", "B", some 0, []⟩ < dictStar ⟨some "c", "C", some 1, []⟩
    ∧ enhId ⟨some "b", "B", some 0, []⟩ ∉ ["a"]
    ∧ enhId ⟨some "c", "C", some 1, []⟩ ∉ ["a"] := by
  refine ⟨rfl, by decide, by decide, by decide⟩

/-- Claim C8, amended: in the sorted habits view, a habit whose id is in
`order` always precedes a habit whose id is not (`Pairwise`: any later
habit in order forces every earlier habit in order).  Star descending is
the sort key only when `order` is empty, in which case the whole list is
star-sorted; when `order` is non-empty, habits without an order position
keep their stored relative order (stable sort) and star is not
consulted. -/
theorem C8_order_stability :
    (∀ (habits : List HabitData) (order : List String),
        (enhancedHabitsView habits order).Pairwise
          (fun a b => enhId b ∈ order → enhId a ∈ order))
    ∧ (∀ habits : List HabitData, enhancedHabitsView habits [] = starSort habits) := by
  constructor
  · intro habits order
    unfold enhancedHabitsView
    split
    · rename_i hord
      rw [List.isEmpty_iff] at hord
      subst hord
      exact pairwise_ofForall (fun a b hb => absurd hb (List.not_mem_nil _)) _
    · refine (pairwise_sortByPos order habits).imp ?_
      intro a b hab hb
      rw [← posKey_lt_length_iff] at hb ⊢
      exact lt_of_le_of_lt hab hb
  · intro habits
    rfl

/-- Claim C10: the disk backend's save does not overwrite the persisted
list with its argument: with a healthy medium it writes the merge of the
currently persisted list with the incoming one, and every habit id
already persisted is still present afterwards — so a habit deleted only
in memory is still in the file after the save. -/
theorem C10_disk_save_preserves_ids (persisted incoming : List HabitData)
    (i : String) (hi : i ∈ persisted.map dictId) :
    (save_user_habit_list_file persisted none incoming).1
        = merge_user_habit_list persisted incoming
      ∧ i ∈ ((save_user_habit_list_file persisted none incoming).1).map dictId := by
  constructor
  · rfl
  · show i ∈ (merge_user_habit_list persisted incoming).map dictId
    exact (mem_ids_merge_user_habit_list persisted incoming i).2 (Or.inl hi)

theorem C10_disk_save_preserves_ids_witness :
    (save_user_habit_list_file [⟨some "a", "A", none, []⟩] none []).1
        = merge_user_habit_list [⟨some "a", "A", none, []⟩] []
      ∧ "a" ∈ ((save_user_habit_list_file [⟨some "a", "A", none, []⟩] none []).1).map dictId :=
  C10_disk_save_preserves_ids [⟨some "a", "A", none, []⟩] [] "a" (by simp [dictId])

end Beaver
